import Mathlib

/-!
Shallow embedding of the walk-forward feature engine of `feature_eng.py`
(`create_advanced_features`) together with its chronological indexing and
recency-weighted aggregation helpers.

Modelling conventions:

* A pandas row is a `Record`; `season` and `round` are integers (the script
  coerces them with `pd.to_numeric` and later `astype(int)`); the nullable
  numeric columns `final_position`, `grid_position` and `points` are
  `Option ℚ` (`none` plays the role of `NaN`).
* The global pre-sort `df.sort_values(["season", "round", "driver_code"])`
  is modelled by an insertion sort under the corresponding lexicographic
  order.  (When the ingested CSV carries an `event_date` column the script
  sorts by `(season, event_date, driver_code)` instead; that global order
  only determines the enumeration order of drivers, never the content of a
  per-driver timeline, which is re-sorted by `time_order` below.)
* `time_order = season * 100 + dense_rank(round within season)` is modelled
  by `timeOrder`, with the dense rank of a value computed as the number of
  distinct round values of that season that are `≤` it.
* `np.exp(np.linspace(-2, 0, n))` and the subsequent normalisation are
  modelled over the exact reals with `Real.exp`; `np.average` is
  `npAverage`.  pandas `.std()` (Bessel-corrected) is `sampleStd`; for
  sequences of length `< 2` pandas yields `NaN`, modelled here by the junk
  value `0`, which is unreachable for emitted rows (history length `≥ 3`).
* pandas `.mean()` of an empty slice is `NaN`; `qmean` returns the junk
  value `0` there (division by zero), again unreachable in every use below.
-/

namespace F1Pred

/-- One row of the ingested race table (one driver in one race). -/
structure Record where
  season : Int
  round : Int
  event_name : String
  location : String
  driver_code : String
  driver_name : String
  team_name : String
  final_position : Option ℚ
  grid_position : Option ℚ
  status : String
  points : Option ℚ
deriving DecidableEq, Repr

/-- `fillna(20)` on a nullable position column. -/
def imputePos (x : Option ℚ) : ℚ := x.getD 20

/-- `fillna(0)` on the nullable points column. -/
def imputePts (x : Option ℚ) : ℚ := x.getD 0

/-- pandas `.mean()` over a (nonempty) list of rationals. -/
def qmean (l : List ℚ) : ℚ := l.sum / l.length

/-- pandas `.tail(n)`: the last `min n l.length` entries of `l`. -/
def lastN (n : ℕ) (l : List Record) : List Record := l.drop (l.length - n)

/-- `np.linspace(-2, 0, n)` (numpy returns `[-2]` for `n = 1`). -/
noncomputable def linspace (n : ℕ) : List ℝ :=
  if n = 1 then [(-2 : ℝ)]
  else (List.range n).map (fun i : ℕ => (-2 : ℝ) + 2 * (i : ℝ) / ((n : ℝ) - 1))

/-- `np.exp(np.linspace(-2, 0, n))`: the unnormalised recency weights. -/
noncomputable def rawWeights (n : ℕ) : List ℝ := (linspace n).map Real.exp

/-- `weights / weights.sum()`: the normalised exponential recency weights. -/
noncomputable def exponential_weights (n : ℕ) : List ℝ :=
  (rawWeights n).map (fun w => w / (rawWeights n).sum)

/-- `np.average(vals, weights=ws)`. -/
noncomputable def npAverage (vals ws : List ℝ) : ℝ :=
  (List.zipWith (fun a b => a * b) vals ws).sum / ws.sum

/-- pandas `.std()` (Bessel correction, `NaN` for length `< 2` modelled as 0). -/
noncomputable def sampleStd (l : List ℚ) : ℝ :=
  if l.length ≤ 1 then 0
  else Real.sqrt ((l.map (fun x => ((x : ℝ) - (qmean l : ℝ)) ^ 2)).sum / ((l.length : ℝ) - 1))

/-- One emitted feature row (the dict appended to `features`). -/
structure FeatureRow where
  season : Int
  round : Int
  event_name : String
  location : String
  driver_code : String
  driver_name : String
  team_name : String
  final_position : Option ℚ
  won : ℕ
  podium : ℕ
  points_scored : Option ℚ
  grid_position : Option ℚ
  race_experience : ℕ
  weighted_avg_position : ℝ
  weighted_avg_points : ℝ
  recent_form_3races : ℚ
  recent_points_3races : ℚ
  podiums_last_5races : ℕ
  consistency_std_position : ℝ
  finish_rate : ℚ
  avg_grid_position_history : ℚ
  avg_grid_to_race_gain : ℚ
  avg_position_on_circuit : ℝ
  circuit_experience : ℕ

/-- The loop body of `create_advanced_features`: the feature row built from a
history (strictly prior races of the driver) and the current race. -/
noncomputable def mkRow (history : List Record) (current : Record) : FeatureRow :=
  let weights := exponential_weights history.length
  let weighted_avg_position :=
    npAverage (history.map (fun r => ((imputePos r.final_position : ℚ) : ℝ))) weights
  let weighted_avg_points :=
    npAverage (history.map (fun r => ((imputePts r.points : ℚ) : ℝ))) weights
  let last_3 := lastN 3 history
  let last_5 := lastN 5 history
  let history_circuit := history.filter (fun r => decide (r.event_name = current.event_name))
  { season := current.season
    round := current.round
    event_name := current.event_name
    location := current.location
    driver_code := current.driver_code
    driver_name := current.driver_name
    team_name := current.team_name
    final_position := current.final_position
    won := match current.final_position with
      | some p => if p = 1 then 1 else 0
      | none => 0
    podium := match current.final_position with
      | some p => if p ≤ 3 then 1 else 0
      | none => 0
    points_scored := current.points
    grid_position := current.grid_position
    race_experience := history.length
    weighted_avg_position := weighted_avg_position
    weighted_avg_points := weighted_avg_points
    recent_form_3races := qmean (last_3.map (fun r => imputePos r.final_position))
    recent_points_3races := (last_3.map (fun r => imputePts r.points)).sum
    podiums_last_5races := last_5.countP (fun r =>
      match r.final_position with
      | some p => decide (p ≤ 3)
      | none => false)
    consistency_std_position := sampleStd (history.map (fun r => imputePos r.final_position))
    finish_rate := if 0 < history.length then
        ((history.countP (fun r => decide (r.status = "Finished")) : ℚ) / history.length)
      else 0
    avg_grid_position_history := qmean (history.map (fun r => imputePos r.grid_position))
    avg_grid_to_race_gain :=
      qmean (history.map (fun r => imputePos r.grid_position - imputePos r.final_position))
    avg_position_on_circuit := if 0 < history_circuit.length then
        ((qmean (history_circuit.map (fun r => imputePos r.final_position)) : ℚ) : ℝ)
      else weighted_avg_position
    circuit_experience := if 0 < history_circuit.length then history_circuit.length else 0 }

/-- The distinct round values appearing for season `s` in table `df`. -/
def roundsInSeason (df : List Record) (s : Int) : List Int :=
  (df.filterMap (fun r => if r.season = s then some r.round else none)).dedup

/-- `rank(method="dense")` of round value `rd` within season `s`. -/
def denseRank (df : List Record) (s : Int) (rd : Int) : ℕ :=
  (roundsInSeason df s).countP (fun x => decide (x ≤ rd))

/-- `time_order = season * 100 + dense rank of round within season`. -/
def timeOrder (df : List Record) (r : Record) : Int :=
  r.season * 100 + (denseRank df r.season r.round : Int)

/-- The global pre-sort order `(season, round, driver_code)`. -/
def globalLE (a b : Record) : Prop :=
  a.season < b.season ∨ (a.season = b.season ∧
    (a.round < b.round ∨ (a.round = b.round ∧ a.driver_code ≤ b.driver_code)))

instance : DecidableRel globalLE := fun a b =>
  inferInstanceAs (Decidable (a.season < b.season ∨ (a.season = b.season ∧
    (a.round < b.round ∨ (a.round = b.round ∧ a.driver_code ≤ b.driver_code)))))

/-- `df.sort_values(["season", "round", "driver_code"])`. -/
def sortGlobal (df : List Record) : List Record := List.insertionSort globalLE df

/-- The per-driver sort order: ascending `time_order` (keys taken from `df`). -/
def keyLE (df : List Record) (a b : Record) : Prop := timeOrder df a ≤ timeOrder df b

instance (df : List Record) : DecidableRel (keyLE df) := fun a b =>
  inferInstanceAs (Decidable (timeOrder df a ≤ timeOrder df b))

/-- `df[df["driver_code"] == d].sort_values("time_order")`: the driver's
timeline inside table `df`. -/
def timeline (df : List Record) (d : String) : List Record :=
  List.insertionSort (keyLE df) (df.filter (fun r => decide (r.driver_code = d)))

/-- `df["driver_code"].unique()` in first-occurrence order. -/
def driversOf (df : List Record) : List String :=
  (df.map (fun r => r.driver_code)).dedup

/-- One iteration of the inner loop: the optional row emitted for position
`idx` of a driver timeline (skipped when fewer than 3 prior races exist). -/
noncomputable def emitAt (tl : List Record) (idx : ℕ) : Option FeatureRow :=
  if h : idx < tl.length then
    (if 3 ≤ idx then some (mkRow (tl.take idx) (tl.get ⟨idx, h⟩)) else none)
  else none

/-- All rows emitted for one driver timeline (the inner `for idx in range`). -/
noncomputable def driverRows (tl : List Record) : List FeatureRow :=
  (List.range tl.length).filterMap (emitAt tl)

/-- The whole feature builder `create_advanced_features`. -/
noncomputable def create_advanced_features (df : List Record) : List FeatureRow :=
  (driversOf (sortGlobal df)).flatMap (fun d => driverRows (timeline (sortGlobal df) d))

/-- The timeline of driver `d` as the builder sees it. -/
def timelineOf (df : List Record) (d : String) : List Record :=
  timeline (sortGlobal df) d

/-- The optional row the builder emits for position `idx` of driver `d`. -/
noncomputable def emittedRow (df : List Record) (d : String) (idx : ℕ) : Option FeatureRow :=
  emitAt (timelineOf df d) idx

/-- The input invariant: `(season, round, driver_code)` identifies a record. -/
def uniqueKeys (df : List Record) : Prop :=
  df.Pairwise (fun a b =>
    ¬ (a.season = b.season ∧ a.round = b.round ∧ a.driver_code = b.driver_code))

instance (df : List Record) : Decidable (uniqueKeys df) :=
  decidable_of_iff (df.Pairwise (fun a b : Record =>
    ¬ (a.season = b.season ∧ a.round = b.round ∧ a.driver_code = b.driver_code))) Iff.rfl

/-- The designed constraint of the indexer: fewer than 100 distinct rounds
per season (the `* 100` multiplier assumes it). -/
def roundBound (df : List Record) : Prop :=
  ∀ s : Int, (roundsInSeason df s).length < 100

/-- Strict chronological order on records by `(season, round)`. -/
def lexLT (a b : Record) : Prop :=
  a.season < b.season ∨ (a.season = b.season ∧ a.round < b.round)

/-- Two records differ in their `(season, round)` key. -/
def recordKeyNE (a b : Record) : Prop := ¬ (a.season = b.season ∧ a.round = b.round)

/-- Convenience constructor for sample records. -/
def mkRec (se rd : Int) (dc ev : String) (fp gp pt : Option ℚ) (st : String) : Record :=
  { season := se, round := rd, event_name := ev, location := "Loc", driver_code := dc,
    driver_name := dc, team_name := "Team", final_position := fp, grid_position := gp,
    status := st, points := pt }

def aR1 : Record := mkRec 2021 1 "AAA" "GP1" (some 5) (some 3) (some 10) "Finished"

def aR2 : Record := mkRec 2021 2 "AAA" "GP2" (some 3) (some 2) (some 15) "Finished"

def aR3 : Record := mkRec 2021 3 "AAA" "GP3" none (some 6) (some 0) "DNF"

def aR4 : Record := mkRec 2021 4 "AAA" "GP1" (some 1) (some 1) (some 25) "Finished"

def aR5 : Record := mkRec 2022 1 "AAA" "GP1" (some 2) (some 2) (some 18) "Finished"

def bR1 : Record := mkRec 2021 1 "BBB" "GP1" (some 7) (some 9) (some 6) "Finished"

/-- Sample timeline of 4 records of driver `AAA`. -/
def tblA : List Record := [aR1, aR2, aR3, aR4]

/-- `tblA` extended with a later (season 2022) record of the same driver. -/
def tblA5 : List Record := [aR1, aR2, aR3, aR4, aR5]

/-- A table with a duplicate `(season, round, driver)` key: `aR1` twice. -/
def dupTable : List Record := [aR1, aR1, aR2, aR3]

/-- A two-driver table: the records of `AAA` plus one record of `BBB`. -/
def tblAB : List Record := [aR1, aR2, aR3, aR4, bR1]

/-- A record agreeing with `aR2` on `event_name` but on nothing else. -/
def cR2x : Record := mkRec 2023 9 "CCC" "GP2" (some 9) (some 8) (some 2) "DNF"

/-- A 4th-round record of `AAA` with a missing final position. -/
def aR4n : Record := mkRec 2021 4 "AAA" "GP1" none (some 1) (some 0) "DNF"

lemma round_mem_roundsInSeason {df : List Record} {r : Record} (hr : r ∈ df) :
    r.round ∈ roundsInSeason df r.season := by
  unfold roundsInSeason
  rw [List.mem_dedup, List.mem_filterMap]
  exact ⟨r, hr, by simp⟩

lemma denseRank_le_card (df : List Record) (s rd : Int) :
    denseRank df s rd ≤ (roundsInSeason df s).length :=
  List.countP_le_length _

lemma denseRank_pos {df : List Record} {s rd : Int} (h : rd ∈ roundsInSeason df s) :
    1 ≤ denseRank df s rd :=
  List.countP_pos_iff.mpr ⟨rd, h, by simp⟩

lemma denseRank_mono {df : List Record} {s : Int} {rd₁ rd₂ : Int} (h : rd₁ ≤ rd₂) :
    denseRank df s rd₁ ≤ denseRank df s rd₂ := by
  refine List.countP_mono_left fun x _ hx => ?_
  simp only [decide_eq_true_eq] at hx ⊢
  omega

lemma countP_le_strict {l : List Int} {a b : Int} (hab : a < b) (hb : b ∈ l) :
    l.countP (fun x => decide (x ≤ a)) < l.countP (fun x => decide (x ≤ b)) := by
  induction l with
  | nil => cases hb
  | cons x t ih =>
      rcases List.mem_cons.mp hb with hx | ht
      · subst hx
        have hmono : t.countP (fun x => decide (x ≤ a)) ≤ t.countP (fun x => decide (x ≤ b)) := by
          refine List.countP_mono_left fun y _ hy => ?_
          simp only [decide_eq_true_eq] at hy ⊢
          omega
        simp only [List.countP_cons]
        have h1 : (decide (b ≤ a)) = false := by simp; omega
        have h2 : (decide (b ≤ b)) = true := by simp
        rw [h1, h2]
        simp
        omega
      · have := ih ht
        simp only [List.countP_cons]
        have hx : (if decide (x ≤ a) = true then 1 else 0) ≤
            (if decide (x ≤ b) = true then 1 else 0) := by
          by_cases hxa : x ≤ a
          · have hxb : x ≤ b := by omega
            simp [hxa, hxb]
          · simp [hxa]
        omega

lemma denseRank_strict {df : List Record} {s rd₁ rd₂ : Int} (h : rd₁ < rd₂)
    (h₂ : rd₂ ∈ roundsInSeason df s) :
    denseRank df s rd₁ < denseRank df s rd₂ :=
  countP_le_strict h h₂

lemma timeOrder_lt_of_season_lt {df : List Record} {r₁ r₂ : Record}
    (hb : roundBound df) (h₁ : r₁ ∈ df) (h₂ : r₂ ∈ df) (hs : r₁.season < r₂.season) :
    timeOrder df r₁ < timeOrder df r₂ := by
  have hd₁ : denseRank df r₁.season r₁.round ≤ (roundsInSeason df r₁.season).length :=
    denseRank_le_card df _ _
  have hb₁ : (roundsInSeason df r₁.season).length < 100 := hb r₁.season
  have hd₂ : 1 ≤ denseRank df r₂.season r₂.round :=
    denseRank_pos (round_mem_roundsInSeason h₂)
  unfold timeOrder
  omega

lemma timeOrder_lt_iff_round_lt {df : List Record} {r₁ r₂ : Record}
    (h₁ : r₁ ∈ df) (h₂ : r₂ ∈ df) (hs : r₁.season = r₂.season) :
    (timeOrder df r₁ < timeOrder df r₂ ↔ r₁.round < r₂.round) := by
  constructor
  · intro hk
    by_contra hrd
    push_neg at hrd
    have : denseRank df r₂.season r₂.round ≤ denseRank df r₂.season r₁.round :=
      denseRank_mono hrd
    unfold timeOrder at hk
    rw [hs] at hk
    omega
  · intro hrd
    have := @denseRank_strict df r₂.season r₁.round r₂.round hrd
      (round_mem_roundsInSeason h₂)
    unfold timeOrder
    rw [hs]
    omega

lemma timeOrder_lt_iff_lexLT {df : List Record} {r₁ r₂ : Record}
    (hb : roundBound df) (h₁ : r₁ ∈ df) (h₂ : r₂ ∈ df) :
    (timeOrder df r₁ < timeOrder df r₂ ↔ lexLT r₁ r₂) := by
  rcases Int.lt_trichotomy r₁.season r₂.season with hs | hs | hs
  · simp only [lexLT]
    exact ⟨fun _ => Or.inl hs, fun _ => timeOrder_lt_of_season_lt hb h₁ h₂ hs⟩
  · rw [timeOrder_lt_iff_round_lt h₁ h₂ hs]
    simp [lexLT, hs]
  · have hgt := timeOrder_lt_of_season_lt hb h₂ h₁ hs
    constructor
    · intro h; omega
    · intro h
      rcases h with h | ⟨he, _⟩
      · omega
      · omega

/-- C4: TimeOrderKey ordering monotonicity.  With `timeOrder df r =
r.season * 100 + dense_rank(r.round within r.season)`, in every table whose
seasons each have fewer than 100 distinct rounds: an earlier season gives a
strictly smaller key, and within a season the key order coincides with the
round order. -/
theorem timeOrder_monotone (df : List Record) (r₁ r₂ : Record)
    (hb : roundBound df) (h₁ : r₁ ∈ df) (h₂ : r₂ ∈ df) :
    (r₁.season < r₂.season → timeOrder df r₁ < timeOrder df r₂) ∧
    (r₁.season = r₂.season → (timeOrder df r₁ < timeOrder df r₂ ↔ r₁.round < r₂.round)) :=
  ⟨fun hs => timeOrder_lt_of_season_lt hb h₁ h₂ hs,
   fun hs => timeOrder_lt_iff_round_lt h₁ h₂ hs⟩

lemma linspace_length (n : ℕ) : (linspace n).length = n := by
  unfold linspace
  split
  · simp [*]
  · simp

lemma rawWeights_length (n : ℕ) : (rawWeights n).length = n := by
  unfold rawWeights
  simp [linspace_length]

lemma exponential_weights_length (n : ℕ) : (exponential_weights n).length = n := by
  unfold exponential_weights
  simp [rawWeights_length]

lemma rawWeights_pos {n : ℕ} {w : ℝ} (hw : w ∈ rawWeights n) : 0 < w := by
  unfold rawWeights at hw
  rcases List.mem_map.mp hw with ⟨x, _, rfl⟩
  exact Real.exp_pos x

lemma rawWeights_sum_pos {n : ℕ} (hn : 1 ≤ n) : 0 < (rawWeights n).sum := by
  refine List.sum_pos _ (fun w hw => rawWeights_pos hw) ?_
  intro hnil
  have := rawWeights_length n
  rw [hnil] at this
  simp at this
  omega

lemma sum_map_div (l : List ℝ) (c : ℝ) : (l.map (fun x => x / c)).sum = l.sum / c := by
  induction l with
  | nil => simp
  | cons x t ih => simp [ih, add_div]

lemma exponential_weights_sum {n : ℕ} (hn : 1 ≤ n) : (exponential_weights n).sum = 1 := by
  unfold exponential_weights
  rw [sum_map_div]
  exact div_self (ne_of_gt (rawWeights_sum_pos hn))

lemma linspace_pairwise_le (n : ℕ) : (linspace n).Pairwise (fun a b => a ≤ b) := by
  unfold linspace
  split
  · simp
  · rw [List.pairwise_map]
    refine (List.pairwise_lt_range n).imp_of_mem ?_
    intro i j hi _ hij
    have hn1 : 1 ≤ n := by
      have := List.mem_range.mp hi
      omega
    have hden : (0 : ℝ) ≤ (n : ℝ) - 1 := by
      have : (1 : ℝ) ≤ (n : ℝ) := by exact_mod_cast hn1
      linarith
    have hnum : (2 : ℝ) * i ≤ 2 * j := by
      have : (i : ℝ) ≤ (j : ℝ) := by exact_mod_cast le_of_lt hij
      linarith
    have := div_le_div_of_nonneg_right hnum hden
    linarith [this]

lemma rawWeights_pairwise_le (n : ℕ) : (rawWeights n).Pairwise (fun a b => a ≤ b) := by
  unfold rawWeights
  rw [List.pairwise_map]
  exact (linspace_pairwise_le n).imp (fun h => Real.exp_le_exp.mpr h)

lemma exponential_weights_pairwise_le {n : ℕ} (hn : 1 ≤ n) :
    (exponential_weights n).Pairwise (fun a b => a ≤ b) := by
  have hs := rawWeights_sum_pos hn
  unfold exponential_weights
  rw [List.pairwise_map]
  exact (rawWeights_pairwise_le n).imp (fun hab => div_le_div_of_nonneg_right hab hs.le)

lemma exponential_weights_one : exponential_weights 1 = [1] := by
  unfold exponential_weights rawWeights linspace
  simp

/-- C5: weight normalization.  For every `n ≥ 1` the normalised exponential
weights have length `n`, sum exactly to 1 over the reals, are non-decreasing
in index order, and for `n = 1` equal `[1]`. -/
theorem exponential_weights_spec (n : ℕ) (hn : 1 ≤ n) :
    (exponential_weights n).length = n ∧ (exponential_weights n).sum = 1 ∧
    (exponential_weights n).Pairwise (fun a b => a ≤ b) ∧
    exponential_weights 1 = [1] :=
  ⟨exponential_weights_length n, exponential_weights_sum hn,
   exponential_weights_pairwise_le hn, exponential_weights_one⟩

/-- Witness for C5 at `n = 2`. -/
theorem exponential_weights_spec_witness :
    (exponential_weights 2).length = 2 ∧ (exponential_weights 2).sum = 1 ∧
    (exponential_weights 2).Pairwise (fun a b => a ≤ b) ∧
    exponential_weights 1 = [1] :=
  exponential_weights_spec 2 (by norm_num)

lemma exponential_weights_mem_pos {n : ℕ} (hn : 1 ≤ n) {w : ℝ}
    (hw : w ∈ exponential_weights n) : 0 < w := by
  unfold exponential_weights at hw
  rcases List.mem_map.mp hw with ⟨x, hx, rfl⟩
  exact div_pos (rawWeights_pos hx) (rawWeights_sum_pos hn)

lemma emitAt_eq_none_of_lt {tl : List Record} {idx : ℕ} (h : idx < 3) :
    emitAt tl idx = none := by
  unfold emitAt
  split
  · rw [if_neg (by omega)]
  · rfl

lemma emitAt_isSome_iff {tl : List Record} {idx : ℕ} :
    (emitAt tl idx).isSome ↔ (3 ≤ idx ∧ idx < tl.length) := by
  unfold emitAt
  split
  · split
    · simpa using ⟨by assumption, by assumption⟩
    · simp only [Option.isSome_none, Bool.false_eq_true, false_iff]
      intro hc
      omega
  · simp only [Option.isSome_none, Bool.false_eq_true, false_iff]
    intro hc
    omega

/-- C10: safety of the weighted averages.  For every history length `n ≥ 1`
each normalised weight is strictly positive and the weight vector passed to
`npAverage` has strictly positive (hence nonzero) sum, so the zero-weight-sum
failure of the weighted mean is unreachable. -/
theorem exponential_weights_safety (n : ℕ) (hn : 1 ≤ n) :
    (∀ w ∈ exponential_weights n, 0 < w) ∧
    0 < (exponential_weights n).sum ∧ (exponential_weights n).sum ≠ 0 := by
  refine ⟨fun w hw => exponential_weights_mem_pos hn hw, ?_, ?_⟩
  · rw [exponential_weights_sum hn]; norm_num
  · rw [exponential_weights_sum hn]; norm_num

/-- Witness for C10 at `n = 3`. -/
theorem exponential_weights_safety_witness :
    (∀ w ∈ exponential_weights 3, 0 < w) ∧
    0 < (exponential_weights 3).sum ∧ (exponential_weights 3).sum ≠ 0 :=
  exponential_weights_safety 3 (by norm_num)

/-- C8: `podiums_last_5races` counts, among the last `min 5 (length history)`
history entries, those whose final position is present and `≤ 3`; this equals
the count under the imputed-to-20 reading, since the sentinel 20 is never
`≤ 3`. -/
theorem podiums_last_5_spec (history : List Record) (current : Record) :
    (mkRow history current).podiums_last_5races =
      (lastN 5 history).countP (fun r => decide (imputePos r.final_position ≤ 3)) ∧
    (lastN 5 history).length = min 5 history.length := by
  constructor
  · show (lastN 5 history).countP _ = _
    refine List.countP_congr fun r _ => ?_
    cases hr : r.final_position with
    | none => simp [imputePos, hr]; norm_num
    | some p => simp [imputePos, hr]
  · unfold lastN
    rw [List.length_drop]
    omega

/-- C9: a record with a missing final position still yields a row (emission
only checks the history length, never the outcome fields) whose
`final_position` label is `none` and whose `won` and `podium` labels are 0. -/
theorem null_final_position_labels (history : List Record) (current : Record)
    (h : current.final_position = none) :
    (mkRow history current).final_position = none ∧
    (mkRow history current).won = 0 ∧ (mkRow history current).podium = 0 ∧
    (∀ (tl : List Record) (idx : ℕ), 3 ≤ idx → idx < tl.length →
      (emitAt tl idx).isSome) := by
  refine ⟨?_, ?_, ?_, fun tl idx h3 hlt => emitAt_isSome_iff.mpr ⟨h3, hlt⟩⟩ <;>
    unfold mkRow <;> simp [h]

/-- Witness for C9: `aR3` has `final_position = none`; the timeline ending in
the null-outcome record `aR4n` still emits a row at position 3. -/
theorem null_final_position_labels_witness :
    (mkRow [aR1, aR2] aR3).final_position = none ∧
    (mkRow [aR1, aR2] aR3).won = 0 ∧ (mkRow [aR1, aR2] aR3).podium = 0 ∧
    (emitAt [aR1, aR2, aR3, aR4n] 3).isSome :=
  ⟨(null_final_position_labels [aR1, aR2] aR3 (by decide)).1,
   (null_final_position_labels [aR1, aR2] aR3 (by decide)).2.1,
   (null_final_position_labels [aR1, aR2] aR3 (by decide)).2.2.1,
   (null_final_position_labels [aR1, aR2] aR3 (by decide)).2.2.2
     [aR1, aR2, aR3, aR4n] 3 (by norm_num) (by decide)⟩

/-- C6: circuit fallback.  With no history entry on the current circuit,
`avg_position_on_circuit` equals `weighted_avg_position` exactly and
`circuit_experience` is 0; otherwise it is the unweighted mean of the imputed
final positions of the matching entries and `circuit_experience` their
count. -/
theorem circuit_fallback (history : List Record) (current : Record) :
    (history.filter (fun r => decide (r.event_name = current.event_name)) = [] →
      (mkRow history current).avg_position_on_circuit =
        (mkRow history current).weighted_avg_position ∧
      (mkRow history current).circuit_experience = 0) ∧
    (history.filter (fun r => decide (r.event_name = current.event_name)) ≠ [] →
      (mkRow history current).avg_position_on_circuit =
        ((qmean ((history.filter (fun r => decide (r.event_name = current.event_name))).map
            (fun r => imputePos r.final_position)) : ℚ) : ℝ) ∧
      (mkRow history current).circuit_experience =
        (history.filter (fun r => decide (r.event_name = current.event_name))).length) := by
  constructor
  · intro h
    unfold mkRow
    simp [h]
  · intro h
    have hl : 0 < (history.filter (fun r => decide (r.event_name = current.event_name))).length :=
      List.length_pos.mpr h
    unfold mkRow
    simp [hl]

/-- Witness for C6: `aR2` shares no circuit with history `[aR1]`, `aR4` shares
circuit `GP1` with `aR1`. -/
theorem circuit_fallback_witness :
    ((mkRow [aR1] aR2).avg_position_on_circuit = (mkRow [aR1] aR2).weighted_avg_position ∧
      (mkRow [aR1] aR2).circuit_experience = 0) ∧
    ((mkRow [aR1, aR2] aR4).avg_position_on_circuit =
        ((qmean (([aR1, aR2].filter (fun r => decide (r.event_name = aR4.event_name))).map
            (fun r => imputePos r.final_position)) : ℚ) : ℝ) ∧
      (mkRow [aR1, aR2] aR4).circuit_experience =
        ([aR1, aR2].filter (fun r => decide (r.event_name = aR4.event_name))).length) :=
  ⟨(circuit_fallback [aR1] aR2).1 (by decide),
   (circuit_fallback [aR1, aR2] aR4).2 (by decide)⟩

lemma roundsInSeason_length_le (df : List Record) (s : Int) :
    (roundsInSeason df s).length ≤ df.length := by
  unfold roundsInSeason
  exact le_trans (List.Sublist.length_le (List.dedup_sublist _)) (List.length_filterMap_le _ _)

/-- Witness for C4 on the concrete table `tblA5` (cross-season pair). -/
theorem timeOrder_monotone_witness :
    (aR4.season < aR5.season → timeOrder tblA5 aR4 < timeOrder tblA5 aR5) ∧
    (aR4.season = aR5.season →
      (timeOrder tblA5 aR4 < timeOrder tblA5 aR5 ↔ aR4.round < aR5.round)) :=
  timeOrder_monotone tblA5 aR4 aR5
    (fun s => lt_of_le_of_lt (roundsInSeason_length_le tblA5 s) (by decide))
    (by decide) (by decide)

lemma length_filterMap_isSome {α β : Type} (l : List α) (f : α → Option β) :
    (l.filterMap f).length = l.countP (fun a => (f a).isSome) := by
  induction l with
  | nil => rfl
  | cons a t ih =>
      simp only [List.filterMap_cons, List.countP_cons]
      cases h : f a <;> simp [h, ih]

lemma countP_range_ge3 (n : ℕ) : (List.range n).countP (fun i => decide (3 ≤ i)) = n - 3 := by
  induction n with
  | zero => rfl
  | succ n ih =>
      rw [List.range_succ, List.countP_append, ih]
      by_cases h3 : 3 ≤ n
      · simp only [List.countP_cons, List.countP_nil]
        rw [decide_eq_true h3]
        simp
        omega
      · simp only [List.countP_cons, List.countP_nil]
        rw [decide_eq_false h3]
        simp
        omega

lemma driverRows_length (tl : List Record) : (driverRows tl).length = tl.length - 3 := by
  unfold driverRows
  rw [length_filterMap_isSome]
  have hcong : (List.range tl.length).countP (fun i => (emitAt tl i).isSome) =
      (List.range tl.length).countP (fun i => decide (3 ≤ i)) := by
    refine List.countP_congr fun i hi => ?_
    have hilt := List.mem_range.mp hi
    constructor
    · intro hs
      exact decide_eq_true (emitAt_isSome_iff.mp hs).1
    · intro hd
      exact emitAt_isSome_iff.mpr ⟨of_decide_eq_true hd, hilt⟩
  rw [hcong]
  exact countP_range_ge3 tl.length

lemma driverRows_eq_nil {tl : List Record} (h : tl.length < 4) : driverRows tl = [] := by
  have hl := driverRows_length tl
  have hz : (driverRows tl).length = 0 := by omega
  exact List.length_eq_zero.mp hz

lemma timeline_perm_filter (df : List Record) (d : String) :
    List.Perm (timeline df d) (df.filter (fun r => decide (r.driver_code = d))) :=
  List.perm_insertionSort _ _

lemma timelineOf_length (df : List Record) (d : String) :
    (timelineOf df d).length = df.countP (fun r => decide (r.driver_code = d)) := by
  unfold timelineOf timeline
  rw [(List.perm_insertionSort _ _).length_eq]
  rw [← List.countP_eq_length_filter]
  exact (List.perm_insertionSort globalLE df).countP_eq _

lemma driverRows_four {tl : List Record} (h4 : tl.length = 4) :
    ∃ h3 : 3 < tl.length, driverRows tl = [mkRow (tl.take 3) (tl.get ⟨3, by omega⟩)] := by
  refine ⟨by omega, ?_⟩
  unfold driverRows
  have hr : List.range tl.length = [0, 1, 2, 3] := by rw [h4]; rfl
  rw [hr]
  simp only [List.filterMap_cons, emitAt_eq_none_of_lt (by norm_num : (0:ℕ) < 3),
    emitAt_eq_none_of_lt (by norm_num : (1:ℕ) < 3), emitAt_eq_none_of_lt (by norm_num : (2:ℕ) < 3)]
  have h3lt : 3 < tl.length := by omega
  rw [show emitAt tl 3 = some (mkRow (tl.take 3) (tl.get ⟨3, h3lt⟩)) from ?_]
  · rfl
  · unfold emitAt
    rw [dif_pos h3lt, if_pos (le_refl 3)]

/-- C2: minimum-history gate.  The timeline of an entity has as many records
as the entity has in the table; a row is emitted at timeline position `idx`
iff `3 ≤ idx` (and `idx` is a valid position); an entity with fewer than 3
records yields no rows; an entity with exactly 4 records yields exactly the
row for its 4th record built from its first 3 records. -/
theorem minimum_history_gate (df : List Record) (d : String) (tl : List Record) :
    (timelineOf df d).length = df.countP (fun r => decide (r.driver_code = d)) ∧
    (∀ idx, (emitAt tl idx).isSome ↔ (3 ≤ idx ∧ idx < tl.length)) ∧
    (tl.length < 3 → driverRows tl = []) ∧
    (tl.length = 4 → ∃ h3 : 3 < tl.length,
      driverRows tl = [mkRow (tl.take 3) (tl.get ⟨3, h3⟩)]) := by
  refine ⟨timelineOf_length df d, fun idx => emitAt_isSome_iff, ?_, ?_⟩
  · intro h
    exact driverRows_eq_nil (by omega)
  · intro h4
    exact driverRows_four h4

/-- Witness for C2: driver `AAA` with the 4-record timeline `tblA`. -/
theorem minimum_history_gate_witness :
    (timelineOf tblA "AAA").length = tblA.countP (fun r => decide (r.driver_code = "AAA")) ∧
    ((emitAt tblA 2).isSome ↔ (3 ≤ 2 ∧ 2 < tblA.length)) ∧
    driverRows [aR1, aR2] = [] ∧
    (∃ h3 : 3 < tblA.length, driverRows tblA = [mkRow (tblA.take 3) (tblA.get ⟨3, h3⟩)]) :=
  ⟨(minimum_history_gate tblA "AAA" tblA).1,
   (minimum_history_gate tblA "AAA" tblA).2.1 2,
   (minimum_history_gate tblA "AAA" [aR1, aR2]).2.2.1 (by decide),
   (minimum_history_gate tblA "AAA" tblA).2.2.2 (by decide)⟩

lemma create_advanced_features_length (df : List Record) :
    (create_advanced_features df).length =
      ((driversOf df).map (fun d => df.countP (fun r => decide (r.driver_code = d)) - 3)).sum := by
  unfold create_advanced_features
  rw [List.length_flatMap]
  have hfun : (fun d => (driverRows (timeline (sortGlobal df) d)).length) =
      (fun d => df.countP (fun r => decide (r.driver_code = d)) - 3) := by
    funext d
    rw [driverRows_length]
    show (timelineOf df d).length - 3 = _
    rw [timelineOf_length]
  have hperm : List.Perm (driversOf (sortGlobal df)) (driversOf df) :=
    ((List.perm_insertionSort globalLE df).map _).dedup
  calc ((driversOf (sortGlobal df)).map
          (fun d => (driverRows (timeline (sortGlobal df) d)).length)).sum
      = ((driversOf (sortGlobal df)).map
          (fun d => df.countP (fun r => decide (r.driver_code = d)) - 3)).sum := by rw [hfun]
    _ = ((driversOf df).map
          (fun d => df.countP (fun r => decide (r.driver_code = d)) - 3)).sum :=
        (hperm.map _).sum_eq

/-- C3 counterexample: `dupTable` contains the key `(2021, 1, AAA)` twice,
violating the uniqueness invariant, yet the builder does not abort: it
returns a Feature Table (of one row) instead of signalling any error. -/
theorem duplicate_key_not_fatal :
    ¬ uniqueKeys dupTable ∧ (create_advanced_features dupTable).length = 1 := by
  constructor
  · decide
  · rw [create_advanced_features_length]
    decide

/-- C3 amended: the builder performs no duplicate-key detection and never
aborts.  On every table — with or without duplicate `(season, round, entity)`
keys — it totally computes a Feature Table with exactly
`count(entity records) - 3` rows per distinct entity, duplicates counted as
ordinary timeline records. -/
theorem no_duplicate_key_check (df : List Record) :
    (create_advanced_features df).length =
      ((driversOf df).map (fun d => df.countP (fun r => decide (r.driver_code = d)) - 3)).sum :=
  create_advanced_features_length df

lemma lexLT_asymm {a b : Record} (h1 : lexLT a b) (h2 : lexLT b a) : False := by
  unfold lexLT at h1 h2
  rcases h1 with h1 | ⟨hs1, hr1⟩ <;> rcases h2 with h2 | ⟨hs2, hr2⟩ <;> omega

lemma eq_of_perm_pairwise_lex {l₁ l₂ : List Record} (hp : List.Perm l₁ l₂)
    (h₁ : l₁.Pairwise lexLT) (h₂ : l₂.Pairwise lexLT) : l₁ = l₂ := by
  haveI : IsAntisymm Record lexLT := ⟨fun a b ha hb => (lexLT_asymm ha hb).elim⟩
  exact List.eq_of_perm_of_sorted hp h₁ h₂

lemma timeline_pairwise_keyLE (df : List Record) (d : String) :
    (timeline df d).Pairwise (keyLE df) := by
  haveI : IsTotal Record (keyLE df) := ⟨fun a b => Int.le_total _ _⟩
  haveI : IsTrans Record (keyLE df) := ⟨fun a b c h1 h2 => le_trans h1 h2⟩
  exact List.sorted_insertionSort _ _

lemma mem_timeline {df : List Record} {d : String} {r : Record} (h : r ∈ timeline df d) :
    r ∈ df ∧ r.driver_code = d := by
  have hm := (timeline_perm_filter df d).mem_iff.mp h
  rcases List.mem_filter.mp hm with ⟨h1, h2⟩
  exact ⟨h1, of_decide_eq_true h2⟩

lemma recordKeyNE_symm : ∀ {a b : Record}, recordKeyNE a b → recordKeyNE b a :=
  fun h hc => h ⟨hc.1.symm, hc.2.symm⟩

lemma filtered_pairwise_ne {df : List Record} {d : String} (hu : uniqueKeys df) :
    (df.filter (fun r => decide (r.driver_code = d))).Pairwise recordKeyNE := by
  have h1 : (df.filter (fun r => decide (r.driver_code = d))).Pairwise (fun a b =>
      ¬ (a.season = b.season ∧ a.round = b.round ∧ a.driver_code = b.driver_code)) :=
    hu.sublist (List.filter_sublist df)
  refine h1.imp_of_mem ?_
  intro a b ha hb hab
  have hda : a.driver_code = d := of_decide_eq_true (List.mem_filter.mp ha).2
  have hdb : b.driver_code = d := of_decide_eq_true (List.mem_filter.mp hb).2
  intro hc
  exact hab ⟨hc.1, hc.2, hda.trans hdb.symm⟩

lemma timeline_pairwise_lexLT {df : List Record} {d : String} (hb : roundBound df)
    (hne : (df.filter (fun r => decide (r.driver_code = d))).Pairwise recordKeyNE) :
    (timeline df d).Pairwise lexLT := by
  have hne' : (timeline df d).Pairwise recordKeyNE :=
    ((timeline_perm_filter df d).pairwise_iff (fun h => recordKeyNE_symm h)).mpr hne
  have hboth := (timeline_pairwise_keyLE df d).and hne'
  refine hboth.imp_of_mem ?_
  intro a b ha hbm hab
  obtain ⟨hle, hke⟩ := hab
  have haf := (mem_timeline ha).1
  have hbf := (mem_timeline hbm).1
  rcases Int.lt_trichotomy a.season b.season with hs | hs | hs
  · exact Or.inl hs
  · rcases Int.lt_trichotomy a.round b.round with hr | hr | hr
    · exact Or.inr ⟨hs, hr⟩
    · exact absurd ⟨hs, hr⟩ hke
    · have hlt : lexLT b a := Or.inr ⟨hs.symm, hr⟩
      have hko := (timeOrder_lt_iff_lexLT hb hbf haf).mpr hlt
      have : timeOrder df a ≤ timeOrder df b := hle
      omega
  · have hlt : lexLT b a := Or.inl hs
    have hko := (timeOrder_lt_iff_lexLT hb hbf haf).mpr hlt
    have : timeOrder df a ≤ timeOrder df b := hle
    omega

lemma roundsInSeason_perm {df₁ df₂ : List Record} (h : List.Perm df₁ df₂) (s : Int) :
    List.Perm (roundsInSeason df₁ s) (roundsInSeason df₂ s) :=
  (h.filterMap _).dedup

lemma roundBound_perm {df₁ df₂ : List Record} (h : List.Perm df₁ df₂)
    (hb : roundBound df₁) : roundBound df₂ := by
  intro s
  rw [← (roundsInSeason_perm h s).length_eq]
  exact hb s

lemma uniqueKeys_perm {df₁ df₂ : List Record} (h : List.Perm df₁ df₂)
    (hu : uniqueKeys df₁) : uniqueKeys df₂ :=
  (h.pairwise_iff (fun hab hc => hab ⟨hc.1.symm, hc.2.1.symm, hc.2.2.symm⟩)).mp hu

lemma timeline_eq_of_filter_perm {dfA dfB : List Record} {d : String}
    (hbA : roundBound dfA) (hbB : roundBound dfB)
    (hneA : (dfA.filter (fun r => decide (r.driver_code = d))).Pairwise recordKeyNE)
    (hf : List.Perm (dfA.filter (fun r => decide (r.driver_code = d)))
      (dfB.filter (fun r => decide (r.driver_code = d)))) :
    timeline dfA d = timeline dfB d := by
  have hneB := (hf.pairwise_iff (fun h => recordKeyNE_symm h)).mp hneA
  have hpA := timeline_pairwise_lexLT hbA hneA
  have hpB := timeline_pairwise_lexLT hbB hneB
  have hperm : List.Perm (timeline dfA d) (timeline dfB d) :=
    (timeline_perm_filter dfA d).trans (hf.trans (timeline_perm_filter dfB d).symm)
  exact eq_of_perm_pairwise_lex hperm hpA hpB

lemma emitAt_congr_of_take_eq {t₁ t₂ : List Record} {idx : ℕ}
    (h : t₁.take (idx + 1) = t₂.take (idx + 1)) : emitAt t₁ idx = emitAt t₂ idx := by
  have hlen : min (idx + 1) t₁.length = min (idx + 1) t₂.length := by
    rw [← List.length_take, h, List.length_take]
  unfold emitAt
  by_cases h1 : idx < t₁.length
  · have h2 : idx < t₂.length := by omega
    rw [dif_pos h1, dif_pos h2]
    by_cases h3 : 3 ≤ idx
    · rw [if_pos h3, if_pos h3]
      have htake : t₁.take idx = t₂.take idx := by
        have hc := congrArg (List.take idx) h
        rw [List.take_take, List.take_take, Nat.min_eq_left (by omega)] at hc
        exact hc
      have hp₁ : idx < (t₁.take (idx + 1)).length := by rw [List.length_take]; omega
      have hp₂ : idx < (t₂.take (idx + 1)).length := by rw [List.length_take]; omega
      have g₁ : (t₁.take (idx + 1))[idx] = t₁[idx] := by rw [List.getElem_take]
      have g₂ : (t₂.take (idx + 1))[idx] = t₂[idx] := by rw [List.getElem_take]
      have g₃ : (t₁.take (idx + 1))[idx] = (t₂.take (idx + 1))[idx] := by
        simp only [h]
      have hget : t₁.get ⟨idx, h1⟩ = t₂.get ⟨idx, h2⟩ := by
        simp only [List.get_eq_getElem]
        rw [← g₁, g₃, g₂]
      rw [htake, hget]
    · rw [if_neg h3, if_neg h3]
  · have h2 : ¬ idx < t₂.length := by omega
    rw [dif_neg h1, dif_neg h2]

/-- C1: no-leakage invariant.  (i) The row the builder emits for position
`idx` of an entity's timeline depends only on the timeline prefix of length
`idx + 1` (the history `0..idx-1` plus the current record at `idx`): any two
tables whose timelines for `d` agree on that prefix yield the same emitted
row, whatever their later records are.  (ii) Records of other entities never
enter the timeline: appending any foreign records leaves the timeline — and
hence every emitted row — unchanged.  (iii) Every computed feature is a
function of the history and the current record's `event_name` meta field
alone: two current records agreeing on `event_name` yield identical values
for all 12 computed features. -/
theorem no_leakage (df₁ df₂ : List Record) (d : String) (idx : ℕ) :
    ((timelineOf df₁ d).take (idx + 1) = (timelineOf df₂ d).take (idx + 1) →
      emittedRow df₁ d idx = emittedRow df₂ d idx) ∧
    (∀ extra : List Record, uniqueKeys df₁ → roundBound df₁ → roundBound (df₁ ++ extra) →
      (∀ r ∈ extra, r.driver_code ≠ d) →
      timelineOf (df₁ ++ extra) d = timelineOf df₁ d) ∧
    (∀ (history : List Record) (c₁ c₂ : Record), c₁.event_name = c₂.event_name →
      (mkRow history c₁).race_experience = (mkRow history c₂).race_experience ∧
      (mkRow history c₁).weighted_avg_position = (mkRow history c₂).weighted_avg_position ∧
      (mkRow history c₁).weighted_avg_points = (mkRow history c₂).weighted_avg_points ∧
      (mkRow history c₁).recent_form_3races = (mkRow history c₂).recent_form_3races ∧
      (mkRow history c₁).recent_points_3races = (mkRow history c₂).recent_points_3races ∧
      (mkRow history c₁).podiums_last_5races = (mkRow history c₂).podiums_last_5races ∧
      (mkRow history c₁).consistency_std_position =
        (mkRow history c₂).consistency_std_position ∧
      (mkRow history c₁).finish_rate = (mkRow history c₂).finish_rate ∧
      (mkRow history c₁).avg_grid_position_history =
        (mkRow history c₂).avg_grid_position_history ∧
      (mkRow history c₁).avg_grid_to_race_gain = (mkRow history c₂).avg_grid_to_race_gain ∧
      (mkRow history c₁).avg_position_on_circuit =
        (mkRow history c₂).avg_position_on_circuit ∧
      (mkRow history c₁).circuit_experience = (mkRow history c₂).circuit_experience) := by
  refine ⟨?_, ?_, ?_⟩
  · intro h
    exact emitAt_congr_of_take_eq h
  swap
  · intro history c₁ c₂ h
    unfold mkRow
    simp [h]
  · intro extra hu hb hb2 hextra
    unfold timelineOf
    have hsX : List.Perm (sortGlobal (df₁ ++ extra)) (df₁ ++ extra) :=
      List.perm_insertionSort _ _
    have hs1 : List.Perm (sortGlobal df₁) df₁ := List.perm_insertionSort _ _
    have hfe : (extra.filter (fun r => decide (r.driver_code = d))) = [] := by
      rw [List.filter_eq_nil_iff]
      intro r hr
      simp only [decide_eq_true_eq]
      exact hextra r hr
    have hfX : (df₁ ++ extra).filter (fun r => decide (r.driver_code = d)) =
        df₁.filter (fun r => decide (r.driver_code = d)) := by
      rw [List.filter_append, hfe, List.append_nil]
    have hne1 : (df₁.filter (fun r => decide (r.driver_code = d))).Pairwise recordKeyNE :=
      filtered_pairwise_ne hu
    apply timeline_eq_of_filter_perm
    · exact roundBound_perm hsX.symm hb2
    · exact roundBound_perm hs1.symm hb
    · have : ((sortGlobal (df₁ ++ extra)).filter
          (fun r => decide (r.driver_code = d))).Pairwise recordKeyNE := by
        refine ((hsX.filter _).pairwise_iff (fun h => recordKeyNE_symm h)).mpr ?_
        rw [hfX]
        exact hne1
      exact this
    · refine (hsX.filter _).trans ?_
      rw [hfX]
      exact (hs1.filter _).symm

/-- Witness for C1: the timeline of `AAA` in `tblA` is a prefix of its
timeline in `tblA5` (same first 4 entries), so the row emitted at position 3
coincides; appending the foreign record `bR1` leaves the timeline of `AAA`
unchanged. -/
theorem no_leakage_witness :
    emittedRow tblA "AAA" 3 = emittedRow tblA5 "AAA" 3 ∧
    timelineOf (tblA ++ [bR1]) "AAA" = timelineOf tblA "AAA" ∧
    (mkRow [aR1] aR2).weighted_avg_position = (mkRow [aR1] cR2x).weighted_avg_position ∧
    (mkRow [aR1] aR2).circuit_experience = (mkRow [aR1] cR2x).circuit_experience :=
  ⟨(no_leakage tblA tblA5 "AAA" 3).1 (by decide),
   (no_leakage tblA tblA5 "AAA" 3).2.1 [bR1] (by decide)
     (fun s => lt_of_le_of_lt (roundsInSeason_length_le tblA s) (by decide))
     (fun s => lt_of_le_of_lt (roundsInSeason_length_le (tblA ++ [bR1]) s) (by decide))
     (by decide),
   ((no_leakage tblA tblA5 "AAA" 3).2.2 [aR1] aR2 cR2x (by decide)).2.1,
   ((no_leakage tblA tblA5 "AAA" 3).2.2 [aR1] aR2 cR2x (by decide)).2.2.2.2.2.2.2.2.2.2.2⟩

/-- C7: determinism up to row order.  On any two row-permutations of the
same Record Table (satisfying the unique-key invariant and the sub-100
distinct-rounds design constraint) the builder produces the same multiset of
feature rows, and two runs on the identical input produce identical
output. -/
theorem builder_perm_invariant (df₁ df₂ : List Record)
    (hu : uniqueKeys df₁) (hb : roundBound df₁) (hp : List.Perm df₁ df₂) :
    List.Perm (create_advanced_features df₁) (create_advanced_features df₂) ∧
    create_advanced_features df₁ = create_advanced_features df₁ := by
  refine ⟨?_, rfl⟩
  have hs1 : List.Perm (sortGlobal df₁) df₁ := List.perm_insertionSort _ _
  have hs2 : List.Perm (sortGlobal df₂) df₂ := List.perm_insertionSort _ _
  have hperm : List.Perm (sortGlobal df₁) (sortGlobal df₂) :=
    hs1.trans (hp.trans hs2.symm)
  have htl : ∀ d, timeline (sortGlobal df₁) d = timeline (sortGlobal df₂) d := by
    intro d
    apply timeline_eq_of_filter_perm
    · exact roundBound_perm hs1.symm hb
    · exact roundBound_perm (hp.trans hs2.symm) hb
    · refine ((hs1.filter _).pairwise_iff (fun h => recordKeyNE_symm h)).mpr ?_
      exact filtered_pairwise_ne hu
    · exact hperm.filter _
  unfold create_advanced_features
  have hfun : (fun d => driverRows (timeline (sortGlobal df₁) d)) =
      (fun d => driverRows (timeline (sortGlobal df₂) d)) := funext fun d => by rw [htl d]
  rw [hfun]
  exact ((hperm.map _).dedup).flatMap_right _

/-- Witness for C7: `tblAB` versus its reversal. -/
theorem builder_perm_invariant_witness :
    List.Perm (create_advanced_features tblAB) (create_advanced_features tblAB.reverse) ∧
    create_advanced_features tblAB = create_advanced_features tblAB :=
  builder_perm_invariant tblAB tblAB.reverse (by decide)
    (fun s => lt_of_le_of_lt (roundsInSeason_length_le tblAB s) (by decide))
    (by decide)

end F1Pred
